import Mathlib

/-!
# poopometer-backend: the `/meter` handler

A shallow embedding of `routes/meter.go`: the single-slot TTL cache, the
`MeterHandler` control flow, the fenced-block extraction done with the regular
expression and the decoding of the model's answer into the `Response` struct.

Texts are lists of Unicode characters.  Times are integers (nanoseconds).
-/

set_option autoImplicit false

namespace Poopometer

/-! ## Time -/

/-- A `time.Time`, as nanoseconds on one time line; the zero `time.Time` is `0`. -/
abbrev Time := Int

/-- A `time.Duration`: a signed 64-bit count of nanoseconds. -/
abbrev Duration := Int

/-- The largest `time.Duration`. -/
def maxDuration : Duration := 2 ^ 63 - 1

/-- The smallest `time.Duration`. -/
def minDuration : Duration := -(2 ^ 63)

/-- `t.Sub(u)`: the difference, saturated at the ends of the `Duration` range. -/
def timeSub (t u : Time) : Duration :=
  if t - u > maxDuration then maxDuration
  else if t - u < minDuration then minDuration
  else t - u

/-- `cacheTTL = 15 * time.Minute`. -/
def cacheTTL : Duration := 15 * (60 * 1000000000)

/-! ## The regular expression -/

/-- The fragment of regular-expression syntax that the handler's pattern uses. -/
inductive Regex where
  | empty : Regex
  | lit : Char → Regex
  | dot : Regex
  | cat : Regex → Regex → Regex
  | lazyStar : Regex → Regex
  | group : Regex → Regex
deriving Repr

/-- A thread of the matcher: the text still to read and the text of group 1. -/
abbrev Thread := List Char × Option (List Char)

/-- The loop of a non-greedy star: leaving the loop is tried before one more
round, and a round that reads nothing is not repeated. -/
def starLoop (step : List Char → Option (List Char) → List Thread) :
    Nat → List Char → Option (List Char) → List Thread
  | 0, s, c => [(s, c)]
  | n + 1, s, c =>
    (s, c) :: (step s c).flatMap fun p =>
      if p.1.length < s.length then starLoop step n p.1 p.2 else []

/-- All ways of matching `r` at the head of the text, in the order of preference
of a backtracking (leftmost-first) matcher.  Flag `s` is on: `.` matches every
character, the line feed included. -/
def matchHere : Regex → List Char → Option (List Char) → List Thread
  | .empty, s, c => [(s, c)]
  | .lit a, s, c =>
    match s with
    | [] => []
    | x :: xs => if x = a then [(xs, c)] else []
  | .dot, s, c =>
    match s with
    | [] => []
    | _ :: xs => [(xs, c)]
  | .cat a b, s, c => (matchHere a s c).flatMap fun p => matchHere b p.1 p.2
  | .lazyStar a, s, c => starLoop (matchHere a) s.length s c
  | .group a, s, c =>
    (matchHere a s c).map fun p => (p.1, some (s.take (s.length - p.1.length)))

/-- A literal text as a regular expression. -/
def Regex.ofLiteral : List Char → Regex
  | [] => .empty
  | x :: xs => .cat (.lit x) (Regex.ofLiteral xs)

/-- The pattern of the handler, the flag `(?s)` being built into `matchHere`. -/
def fencePattern : Regex :=
  .cat (Regex.ofLiteral "```json".toList)
    (.cat (.group (.lazyStar .dot)) (Regex.ofLiteral "```".toList))

/-- `re.FindStringSubmatch(s)` for a pattern with one group: the matches are
tried from the leftmost start on, and at a start the preferred one is taken.
The result is the text of group 1 (`matches[1]`); `none` is a nil slice. -/
def FindStringSubmatch (re : Regex) : List Char → Option (List Char)
  | [] =>
    match matchHere re [] none with
    | [] => none
    | p :: _ => some (p.2.getD [])
  | x :: xs =>
    match matchHere re (x :: xs) none with
    | [] => FindStringSubmatch re xs
    | p :: _ => some (p.2.getD [])

/-- Lines 103-106: the content is replaced by group 1 when the pattern matches. -/
def extractContent (content : List Char) : List Char :=
  match FindStringSubmatch fencePattern content with
  | some m => m
  | none => content

/-! ### The extraction as the specification words it -/

/-- Whether the text starts with `pat`. -/
def startsWith : List Char → List Char → Bool
  | [], _ => true
  | _ :: _, [] => false
  | p :: ps, c :: cs => decide (c = p) && startsWith ps cs

/-- The first position at which `pat` occurs in the text, if any. -/
def indexOf (pat : List Char) : List Char → Option Nat
  | [] => if startsWith pat [] then some 0 else none
  | c :: cs =>
    if startsWith pat (c :: cs) then some 0 else (indexOf pat cs).map (· + 1)

/-- The candidate payload in the words of the specification: the text strictly
between the first opening marker and the next closing marker after it when
both exist, the whole text otherwise. -/
def candidatePayloadSpec (t : List Char) : List Char :=
  match indexOf "```json".toList t with
  | none => t
  | some i =>
    match indexOf "```".toList (t.drop (i + 7)) with
    | none => t
    | some k => (t.drop (i + 7)).take k

/-! ## Decoding the answer: `json.Unmarshal` into `Response` -/

/-- The struct `Response`; `int` is taken as 64 bits wide. -/
structure Response where
  Indicator : Int
  Comment : String
  Review : String
deriving DecidableEq, Repr

/-- A JSON text as a tree; a number keeps its literal. -/
inductive JSON where
  | null : JSON
  | bool : Bool → JSON
  | num : List Char → JSON
  | str : List Char → JSON
  | arr : List JSON → JSON
  | obj : List (List Char × JSON) → JSON
deriving Repr

/-- Why a text is not read as JSON. `outOfFuel` is an artefact of the
embedding; `parseJSON_never_outOfFuel` shows it does not occur. -/
inductive ScanError where
  | invalid : ScanError
  | outOfFuel : ScanError
deriving DecidableEq, Repr

/-- The scanner's `isSpace`. -/
def isSpace (c : Char) : Bool :=
  c = ' ' || c = '\t' || c = '\r' || c = '\n'

/-- Leading white space dropped. -/
def skipSpace : List Char → List Char
  | [] => []
  | c :: cs => if isSpace c then skipSpace cs else c :: cs

/-- The value of a hexadecimal digit. -/
def hexDigit (c : Char) : Option Nat :=
  if '0' ≤ c ∧ c ≤ '9' then some (c.toNat - '0'.toNat)
  else if 'a' ≤ c ∧ c ≤ 'f' then some (c.toNat - 'a'.toNat + 10)
  else if 'A' ≤ c ∧ c ≤ 'F' then some (c.toNat - 'A'.toNat + 10)
  else none

/-- The four hexadecimal digits after `\u` (`getu4`). -/
def hex4 (a b c d : Char) : Option Nat :=
  match hexDigit a, hexDigit b, hexDigit c, hexDigit d with
  | some x, some y, some z, some w => some (((x * 16 + y) * 16 + z) * 16 + w)
  | _, _, _, _ => none

/-- `unicode.ReplacementChar`. -/
def replacementChar : Char := Char.ofNat 0xFFFD

/-- `utf16.IsSurrogate`. -/
def isSurrogate (r : Nat) : Bool := 0xD800 ≤ r && r < 0xE000

/-- `utf16.DecodeRune`: the code point of a surrogate pair, or the replacement
character when the two do not form a pair. -/
def decodeSurrogates (r1 r2 : Nat) : Char :=
  if 0xD800 ≤ r1 ∧ r1 < 0xDC00 ∧ 0xDC00 ≤ r2 ∧ r2 < 0xE000 then
    Char.ofNat ((r1 - 0xD800) * 1024 + (r2 - 0xDC00) + 0x10000)
  else replacementChar

/-- The character a one-letter escape stands for. -/
def escapeChar (c : Char) : Option Char :=
  if c = '"' then some '"'
  else if c = '\\' then some '\\'
  else if c = '/' then some '/'
  else if c = 'b' then some (Char.ofNat 8)
  else if c = 'f' then some (Char.ofNat 12)
  else if c = 'n' then some '\n'
  else if c = 'r' then some '\r'
  else if c = 't' then some '\t'
  else none

/-- The replacement character owed for a surrogate escape that found no partner. -/
def flush (pending : Option Nat) : List Char :=
  match pending with
  | some _ => [replacementChar]
  | none => []

/-- Characters put in front of the text of a scanned string. -/
def emit (pre : List Char) : Option (List Char × List Char) → Option (List Char × List Char)
  | some (t, r) => some (pre ++ t, r)
  | none => none

/-- A string literal after its opening quote: the text it denotes (`unquote`)
and what follows the closing quote.  Control characters and unknown escapes
are refused, as the scanner does.  `pending` is a surrogate read from the
`\u` escape just before: with a following `\u` escape that completes the pair
the two give one character, otherwise it gives the replacement character. -/
def scanString (pending : Option Nat) : List Char → Option (List Char × List Char)
  | [] => none
  | c :: rest =>
    if c = '"' then some (flush pending, rest)
    else if c.toNat < 0x20 then none
    else if c ≠ '\\' then emit (flush pending ++ [c]) (scanString none rest)
    else
      match rest with
      | [] => none
      | e :: rest1 =>
        if e = 'u' then
          match rest1 with
          | h1 :: h2 :: h3 :: h4 :: rest2 =>
            match hex4 h1 h2 h3 h4 with
            | none => none
            | some rr =>
              match pending with
              | some hi =>
                if decodeSurrogates hi rr ≠ replacementChar then
                  emit [decodeSurrogates hi rr] (scanString none rest2)
                else if isSurrogate rr then
                  emit [replacementChar] (scanString (some rr) rest2)
                else emit [replacementChar, Char.ofNat rr] (scanString none rest2)
              | none =>
                if isSurrogate rr then scanString (some rr) rest2
                else emit [Char.ofNat rr] (scanString none rest2)
          | _ => none
        else
          match escapeChar e with
          | none => none
          | some x => emit (flush pending ++ [x]) (scanString none rest1)

/-- The longest run of decimal digits at the head, and the rest. -/
def spanDigits : List Char → List Char × List Char
  | [] => ([], [])
  | c :: cs =>
    if c.isDigit then ((spanDigits cs).1.cons c, (spanDigits cs).2) else ([], c :: cs)

/-- The integer part of a number: `0`, or a digit from 1 to 9 and more digits. -/
def scanIntPart : List Char → Option (List Char × List Char)
  | [] => none
  | c :: cs =>
    if c = '0' then some (['0'], cs)
    else if c.isDigit then some (c :: (spanDigits cs).1, (spanDigits cs).2)
    else none

/-- The optional fraction: a point and at least one digit. -/
def scanFraction : List Char → Option (List Char × List Char)
  | '.' :: cs =>
    match spanDigits cs with
    | ([], _) => none
    | (ds, r) => some ('.' :: ds, r)
  | s => some ([], s)

/-- The optional exponent: `e` or `E`, an optional sign and at least one digit. -/
def scanExponent : List Char → Option (List Char × List Char)
  | [] => some ([], [])
  | c :: cs =>
    if c = 'e' ∨ c = 'E' then
      match cs with
      | [] => none
      | g :: gs =>
        if g = '+' ∨ g = '-' then
          match spanDigits gs with
          | ([], _) => none
          | (ds, r) => some (c :: g :: ds, r)
        else
          match spanDigits (g :: gs) with
          | ([], _) => none
          | (ds, r) => some (c :: ds, r)
    else some ([], c :: cs)

/-- A number literal at the head of the text, and the rest. -/
def scanNumber (s : List Char) : Option (List Char × List Char) :=
  let body := match s with
    | '-' :: cs => cs
    | _ => s
  let sign := match s with
    | '-' :: _ => ['-']
    | _ => []
  match scanIntPart body with
  | none => none
  | some (i, r1) =>
    match scanFraction r1 with
    | none => none
    | some (f, r2) =>
      match scanExponent r2 with
      | none => none
      | some (e, r3) => some (sign ++ i ++ f ++ e, r3)

/-- The scanner's `maxNestingDepth`. -/
def maxNestingDepth : Nat := 10000

/-- Whether the text starts with the given characters; the rest if so. -/
def dropLiteral : List Char → List Char → Option (List Char)
  | [], s => some s
  | _ :: _, [] => none
  | p :: ps, c :: cs => if c = p then dropLiteral ps cs else none

mutual
/-- One JSON value at the head of the text (white space before it skipped), and
the rest of the text.  `depth` counts the arrays and objects that are open. -/
def parseValue : Nat → Nat → List Char → Except ScanError (JSON × List Char)
  | 0, _, _ => .error .outOfFuel
  | fuel + 1, depth, s =>
    match skipSpace s with
    | [] => .error .invalid
    | c :: rest =>
      if c = '{' then
        if depth + 1 > maxNestingDepth then .error .invalid
        else
          match skipSpace rest with
          | [] => .error .invalid
          | d :: rest1 =>
            if d = '}' then .ok (.obj [], rest1)
            else
              match parseMembers fuel (depth + 1) (d :: rest1) with
              | .ok (kvs, r) => .ok (.obj kvs, r)
              | .error e => .error e
      else if c = '[' then
        if depth + 1 > maxNestingDepth then .error .invalid
        else
          match skipSpace rest with
          | [] => .error .invalid
          | d :: rest1 =>
            if d = ']' then .ok (.arr [], rest1)
            else
              match parseElements fuel (depth + 1) (d :: rest1) with
              | .ok (vs, r) => .ok (.arr vs, r)
              | .error e => .error e
      else if c = '"' then
        match scanString none rest with
        | some (t, r) => .ok (.str t, r)
        | none => .error .invalid
      else if c = 't' then
        match dropLiteral ['r', 'u', 'e'] rest with
        | some r => .ok (.bool true, r)
        | none => .error .invalid
      else if c = 'f' then
        match dropLiteral ['a', 'l', 's', 'e'] rest with
        | some r => .ok (.bool false, r)
        | none => .error .invalid
      else if c = 'n' then
        match dropLiteral ['u', 'l', 'l'] rest with
        | some r => .ok (.null, r)
        | none => .error .invalid
      else
        match scanNumber (c :: rest) with
        | some (lit, r) => .ok (.num lit, r)
        | none => .error .invalid
/-- The elements of an array from the head of an element on, up to the closing
bracket, and the rest of the text. -/
def parseElements : Nat → Nat → List Char → Except ScanError (List JSON × List Char)
  | 0, _, _ => .error .outOfFuel
  | fuel + 1, depth, s =>
    match parseValue fuel depth s with
    | .error e => .error e
    | .ok (v, r) =>
      match skipSpace r with
      | [] => .error .invalid
      | c :: rest =>
        if c = ',' then
          match parseElements fuel depth rest with
          | .ok (vs, r1) => .ok (v :: vs, r1)
          | .error e => .error e
        else if c = ']' then .ok ([v], rest)
        else .error .invalid
/-- The members of an object from the head of a key on, up to the closing
brace, and the rest of the text. -/
def parseMembers : Nat → Nat → List Char →
    Except ScanError (List (List Char × JSON) × List Char)
  | 0, _, _ => .error .outOfFuel
  | fuel + 1, depth, s =>
    match skipSpace s with
    | [] => .error .invalid
    | q :: rest =>
      if q ≠ '"' then .error .invalid
      else
        match scanString none rest with
        | none => .error .invalid
        | some (key, r) =>
          match skipSpace r with
          | [] => .error .invalid
          | c :: rest1 =>
            if c ≠ ':' then .error .invalid
            else
              match parseValue fuel depth rest1 with
              | .error e => .error e
              | .ok (v, r1) =>
                match skipSpace r1 with
                | [] => .error .invalid
                | d :: rest2 =>
                  if d = ',' then
                    match parseMembers fuel depth rest2 with
                    | .ok (kvs, r2) => .ok ((key, v) :: kvs, r2)
                    | .error e => .error e
                  else if d = '}' then .ok ([(key, v)], rest2)
                  else .error .invalid
end

/-- The whole text as one JSON value with white space around it (`checkValid`
and the reading of the value). -/
def parseJSON (s : List Char) : Except ScanError JSON :=
  match parseValue (2 * s.length + 1) 0 s with
  | .error e => .error e
  | .ok (v, r) =>
    match skipSpace r with
    | [] => .ok v
    | _ :: _ => .error .invalid

/-- `strconv.ParseInt(s, 10, 64)`: an optional sign and decimal digits, the
value within the signed 64-bit range. -/
def ParseInt (s : List Char) : Option Int :=
  let neg := s.head? = some '-'
  let digits := if s.head? = some '+' ∨ s.head? = some '-' then s.tail else s
  if digits = [] then none
  else if !digits.all Char.isDigit then none
  else
    let un := digits.foldl (fun n c => n * 10 + (c.toNat - '0'.toNat)) 0
    if neg then
      if un > 2 ^ 63 then none else some (-(un : Int))
    else
      if un ≥ 2 ^ 63 then none else some (un : Int)

/-- The fields of `Response`. -/
inductive Field where
  | indicator : Field
  | comment : Field
  | review : Field
deriving DecidableEq, Repr

/-- An upper-case Latin letter made lower case, other characters kept. -/
def foldChar (c : Char) : Char :=
  if 'A' ≤ c ∧ c ≤ 'Z' then Char.ofNat (c.toNat + 32) else c

/-- The field an object key names: the `json` tag, matched exactly or without
regard to case.  (No tag holds `k` or `s`, so only the Latin letters fold.) -/
def fieldOf (key : List Char) : Option Field :=
  if key = "indicator".toList then some .indicator
  else if key = "comment".toList then some .comment
  else if key = "review".toList then some .review
  else if key.map foldChar = "indicator".toList then some .indicator
  else if key.map foldChar = "comment".toList then some .comment
  else if key.map foldChar = "review".toList then some .review
  else none

/-- One member of the object stored into the struct; the flag records an
`UnmarshalTypeError`, after which decoding goes on.  A key that names no field
is skipped, `null` leaves a field as it is. -/
def storeMember (st : Response × Bool) (kv : List Char × JSON) : Response × Bool :=
  match fieldOf kv.1 with
  | none => st
  | some .indicator =>
    match kv.2 with
    | .null => st
    | .num lit =>
      match ParseInt lit with
      | some n => ({ st.1 with Indicator := n }, st.2)
      | none => (st.1, true)
    | _ => (st.1, true)
  | some .comment =>
    match kv.2 with
    | .null => st
    | .str t => ({ st.1 with Comment := String.mk t }, st.2)
    | _ => (st.1, true)
  | some .review =>
    match kv.2 with
    | .null => st
    | .str t => ({ st.1 with Review := String.mk t }, st.2)
    | _ => (st.1, true)

/-- The zero value of `Response`, which `var result Response` declares. -/
def zeroResponse : Response := ⟨0, "", ""⟩

/-- A JSON value stored into a zero `Response`; `none` is an
`UnmarshalTypeError`. -/
def decodeResponse : JSON → Option Response
  | .null => some zeroResponse
  | .obj kvs =>
    if (kvs.foldl storeMember (zeroResponse, false)).2 then none
    else some (kvs.foldl storeMember (zeroResponse, false)).1
  | _ => none

/-- `json.Unmarshal([]byte(content), &result)` for a zero `result`; `none` is a
non-nil error. -/
def Unmarshal (data : List Char) : Option Response :=
  match parseJSON data with
  | .error _ => none
  | .ok j => decodeResponse j

/-! ## The handler -/

/-- A value of a JSON object that the handler writes. -/
inductive FieldValue where
  | int : Int → FieldValue
  | str : String → FieldValue
deriving DecidableEq, Repr

/-- A JSON object written as the body of a reply: its members. -/
abbrev Body := List (String × FieldValue)

/-- The encoding of a `Response` by `c.JSON`: the three tagged fields. -/
def Response.toJSON (r : Response) : Body :=
  [("indicator", .int r.Indicator), ("comment", .str r.Comment), ("review", .str r.Review)]

/-- The map `gin.H{"error": msg}`. -/
def errorH (msg : String) : Body := [("error", .str msg)]

/-- The map `gin.H{"indicator": 42, "comment": comment}`, keys in the sorted
order of the encoding of a map. -/
def fallbackH (comment : String) : Body := [("comment", .str comment), ("indicator", .int 42)]

/-- A message of a chat completion request. -/
structure ChatCompletionMessage where
  Role : String
  Content : String
deriving DecidableEq, Repr

/-- The fields of `openai.ChatCompletionRequest` that the handler sets. -/
structure ChatCompletionRequest where
  Model : String
  Messages : List ChatCompletionMessage
  MaxTokens : Nat
deriving DecidableEq, Repr

/-- An element of the request body, a `map[string]interface{}`. -/
abbrev Article := List (List Char × JSON)

/-- What the handler does to its surroundings, in order. -/
inductive Event where
  | lock : Event
  | unlock : Event
  | executable : Event
  | readFile : String → Event
  | bindJSON : Event
  | getenv : String → Event
  | createChatCompletion : String → ChatCompletionRequest → Event
  | writeJSON : Nat → Body → Event
deriving DecidableEq, Repr

/-- How a run of the handler ends: with a reply, or in a run-time panic. -/
inductive Outcome where
  | replied : Nat → Body → Outcome
  | panicked : Outcome
deriving DecidableEq, Repr

/-- The package variables `cache` and `cacheTime`. -/
structure Cache where
  cache : Response
  cacheTime : Time
deriving DecidableEq, Repr

/-- The package variables at process start. -/
def Cache.initial : Cache := ⟨zeroResponse, 0⟩

/-- What one request finds around it: the readings of the clock, the results
of the calls to the operating system, the bound request body, and the
external service. -/
structure World where
  /-- The clock when `time.Since(cacheTime)` is evaluated. -/
  now : Time
  /-- The result `os.Executable()`: the path, or `none` for an error. -/
  executable : Option String
  /-- The path `filepath.Join(filepath.Dir(ex), "prompt.xml")`. -/
  promptFilePath : String → String
  /-- The function `os.ReadFile`: the contents, or `none` for an error. -/
  readFile : String → Option String
  /-- The result `c.BindJSON(&articles)`: the articles, or `none` for an error. -/
  body : Option (List Article)
  /-- The value `os.Getenv("OPENAI_API_KEY")`. -/
  apiKey : String
  /-- The call `openai.NewClient(apiKey).CreateChatCompletion(c, req)`: the message
  contents of the choices, or `none` for an error. -/
  createChatCompletion : String → ChatCompletionRequest → Option (List String)
  /-- The clock when `time.Now()` is evaluated for the store. -/
  storeTime : Time

/-- The result of a run: how it ended, the package variables after it, and
what it did. -/
structure Result where
  outcome : Outcome
  state : Cache
  trace : List Event

/-- Lines 66-71: the titles of the articles that have a string `title`, each
followed by a line feed. -/
def eventTitles : List Article → List Char
  | [] => []
  | article :: more =>
    match article.lookup "title".toList with
    | some (.str title) => title ++ ['\n'] ++ eventTitles more
    | _ => eventTitles more

/-- Lines 84-91: the request sent to the external service. -/
def buildRequest (prompt : String) (articles : List Article) : ChatCompletionRequest :=
  { Model := "gpt-4o"
    Messages :=
      [⟨"system", prompt⟩,
       ⟨"user", "Here are the recent events: " ++ String.mk (eventTitles articles)⟩]
    MaxTokens := 1000 }

/-- A reply `c.JSON(status, body)` followed by `return`: the cache is untouched. -/
def reply (s : Cache) (t : List Event) (status : Nat) (body : Body) : Result :=
  ⟨.replied status body, s, t ++ [.writeJSON status body]⟩

/-- The function `MeterHandler`, from the unlock at line 41 on. -/
def computeFresh (w : World) (s : Cache) : Result :=
  let t0 : List Event := [.lock, .unlock, .executable]
  match w.executable with
  | none => reply s t0 500 (errorH "Failed to determine executable path")
  | some ex =>
    let t1 := t0 ++ [.readFile (w.promptFilePath ex)]
    match w.readFile (w.promptFilePath ex) with
    | none => reply s t1 500 (errorH "Failed to read prompt file")
    | some prompt =>
      let t2 := t1 ++ [.bindJSON]
      match w.body with
      | none => reply s t2 400 (errorH "Invalid request body")
      | some articles =>
        if articles.length = 0 then reply s t2 400 (errorH "No articles provided")
        else
          let t3 := t2 ++ [.getenv "OPENAI_API_KEY"]
          if w.apiKey = "" then reply s t3 500 (errorH "OpenAI API key is not set")
          else
            let req := buildRequest prompt articles
            let t4 := t3 ++ [.createChatCompletion w.apiKey req]
            match w.createChatCompletion w.apiKey req with
            | none => reply s t4 500 (fallbackH "An error occurred")
            | some [] => ⟨.panicked, s, t4⟩
            | some (first :: _) =>
              match Unmarshal (extractContent first.toList) with
              | none => reply s t4 500 (fallbackH "Failed to parse response")
              | some result =>
                ⟨.replied 200 result.toJSON, ⟨result, w.storeTime⟩,
                  t4 ++ [.lock, .unlock, .writeJSON 200 result.toJSON]⟩

/-- The function `MeterHandler`: the package variables and the surroundings
to the result of the run. -/
def MeterHandler (w : World) (s : Cache) : Result :=
  if timeSub w.now s.cacheTime < cacheTTL then
    ⟨.replied 200 s.cache.toJSON, s, [.lock, .writeJSON 200 s.cache.toJSON, .unlock]⟩
  else computeFresh w s

/-- The events of a trace that happen while the mutex is held; `held` tells
whether it is held at the start. -/
def heldEvents : Bool → List Event → List Event
  | _, [] => []
  | held, e :: t =>
    if e = .lock then heldEvents true t
    else if e = .unlock then heldEvents false t
    else if held then e :: heldEvents held t
    else heldEvents held t

/-- Whether the mutex is held after a trace; `held` tells whether it is held
at the start. -/
def heldAfter : Bool → List Event → Bool
  | held, [] => held
  | held, e :: t =>
    if e = .lock then heldAfter true t
    else if e = .unlock then heldAfter false t
    else heldAfter held t

/-- A member of an object that `storeMember` stores without a type error: its
key names no field, or its value is `null`, or the value has the type of the
field (a number that `ParseInt` reads for `indicator`, a string for `comment`
and `review`). -/
def memberDecodes (kv : List Char × JSON) : Bool :=
  match fieldOf kv.1, kv.2 with
  | none, _ => true
  | some _, .null => true
  | some .indicator, .num lit => (ParseInt lit).isSome
  | some .comment, .str _ => true
  | some .review, .str _ => true
  | _, _ => false

/-- A JSON value of the shape that decodes into `Response`: `null`, or an
object all of whose members decode. -/
def decodes : JSON → Bool
  | .null => true
  | .obj kvs => kvs.all memberDecodes
  | _ => false

/-! ## Sample surroundings -/

/-- A fenced answer of the external service. -/
def fencedAnswer : String :=
  "```json\n\x7b\"indicator\":7,\"comment\":\"ok\",\"review\":\"fine\"\x7d\n```"

/-- A request with one article, a readable prompt, a credential, and an
external service that answers with `answer`. -/
def sampleWorld (answer : Option (List String)) : World :=
  { now := 63900000000000000000
    executable := some "/srv/meter/server"
    promptFilePath := fun _ => "/srv/meter/prompt.xml"
    readFile := fun p => if p = "/srv/meter/prompt.xml" then some "<prompt/>" else none
    body := some [[("title".toList, .str "Storm warning".toList)]]
    apiKey := "sk-test"
    createChatCompletion := fun _ _ => answer
    storeTime := 63900000002000000000 }

/-- A cache written five minutes before the clock of `sampleWorld`. -/
def recentCache : Cache := ⟨⟨3, "calm", "quiet week"⟩, 63899999700000000000⟩

/-- A cache written exactly fifteen minutes before the clock of `sampleWorld`. -/
def expiredCache : Cache := ⟨⟨3, "calm", "quiet week"⟩, 63899999100000000000⟩

/-! ## Properties -/

theorem timeSub_lt_cacheTTL (t u : Time) : timeSub t u < cacheTTL ↔ t - u < cacheTTL := by
  have hmax : maxDuration = (9223372036854775807 : Int) := by norm_num [maxDuration]
  have hmin : minDuration = (-9223372036854775808 : Int) := by norm_num [minDuration]
  have httl : cacheTTL = (900000000000 : Int) := by norm_num [cacheTTL]
  unfold timeSub
  rw [hmax, hmin, httl]
  generalize (t - u : Int) = d
  split_ifs <;> constructor <;> intro h <;> linarith

theorem MeterHandler_fresh (w : World) (s : Cache) (h : w.now - s.cacheTime < cacheTTL) :
    MeterHandler w s =
      ⟨.replied 200 s.cache.toJSON, s, [.lock, .writeJSON 200 s.cache.toJSON, .unlock]⟩ := by
  unfold MeterHandler
  rw [if_pos ((timeSub_lt_cacheTTL _ _).2 h)]

theorem MeterHandler_stale (w : World) (s : Cache) (h : cacheTTL ≤ w.now - s.cacheTime) :
    MeterHandler w s = computeFresh w s := by
  unfold MeterHandler
  rw [if_neg (fun hlt => absurd ((timeSub_lt_cacheTTL _ _).1 hlt) (not_lt.2 h))]

/-- The run past every check, up to the decoding of the first choice. -/
theorem computeFresh_decode (w : World) (s : Cache) (ex prompt : String)
    (articles : List Article) (first : String) (rest : List String)
    (hex : w.executable = some ex)
    (hprompt : w.readFile (w.promptFilePath ex) = some prompt)
    (hbody : w.body = some articles) (hne : articles ≠ [])
    (hkey : w.apiKey ≠ "")
    (hcall : w.createChatCompletion w.apiKey (buildRequest prompt articles)
      = some (first :: rest)) :
    computeFresh w s =
      match Unmarshal (extractContent first.toList) with
      | none =>
        reply s [.lock, .unlock, .executable, .readFile (w.promptFilePath ex), .bindJSON,
          .getenv "OPENAI_API_KEY",
          .createChatCompletion w.apiKey (buildRequest prompt articles)]
          500 (fallbackH "Failed to parse response")
      | some result =>
        ⟨.replied 200 result.toJSON, ⟨result, w.storeTime⟩,
          [.lock, .unlock, .executable, .readFile (w.promptFilePath ex), .bindJSON,
            .getenv "OPENAI_API_KEY",
            .createChatCompletion w.apiKey (buildRequest prompt articles),
            .lock, .unlock, .writeJSON 200 result.toJSON]⟩ := by
  have hlen : articles.length ≠ 0 := by
    intro h0
    exact hne (List.length_eq_zero.1 h0)
  unfold computeFresh
  simp only [hex, hprompt, hbody, hlen, hkey, hcall, if_false, List.cons_append,
    List.nil_append]

/-- Every way through `computeFresh` but the stored one leaves the package
variables as they were. -/
theorem computeFresh_state (w : World) (s : Cache) :
    (computeFresh w s).state = s ∨
    ∃ ex prompt articles first rest v,
      w.executable = some ex ∧ w.readFile (w.promptFilePath ex) = some prompt ∧
      w.body = some articles ∧ articles ≠ [] ∧ w.apiKey ≠ "" ∧
      w.createChatCompletion w.apiKey (buildRequest prompt articles) = some (first :: rest) ∧
      Unmarshal (extractContent first.toList) = some v ∧
      (computeFresh w s).state = ⟨v, w.storeTime⟩ ∧
      (computeFresh w s).outcome = .replied 200 v.toJSON := by
  cases hex : w.executable with
  | none => left; simp [computeFresh, hex, reply]
  | some ex =>
    cases hprompt : w.readFile (w.promptFilePath ex) with
    | none => left; simp [computeFresh, hex, hprompt, reply]
    | some prompt =>
      cases hbody : w.body with
      | none => left; simp [computeFresh, hex, hprompt, hbody, reply]
      | some articles =>
        by_cases hne : articles = []
        · left; simp [computeFresh, hex, hprompt, hbody, hne, reply]
        · by_cases hkey : w.apiKey = ""
          · left
            have hlen : articles.length ≠ 0 := fun h0 => hne (List.length_eq_zero.1 h0)
            simp [computeFresh, hex, hprompt, hbody, hlen, hkey, reply]
          · have hlen : articles.length ≠ 0 := fun h0 => hne (List.length_eq_zero.1 h0)
            cases hcall : w.createChatCompletion w.apiKey (buildRequest prompt articles) with
            | none => left; simp [computeFresh, hex, hprompt, hbody, hlen, hkey, hcall, reply]
            | some choices =>
              cases choices with
              | nil => left; simp [computeFresh, hex, hprompt, hbody, hlen, hkey, hcall]
              | cons first rest =>
                have hrun := computeFresh_decode w s ex prompt articles first rest
                  hex hprompt hbody hne hkey hcall
                cases hparse : Unmarshal (extractContent first.toList) with
                | none => left; rw [hrun, hparse]; rfl
                | some v =>
                  right
                  refine ⟨ex, prompt, articles, first, rest, v, ?_, ?_, ?_, hne, hkey,
                    ?_, ?_, ?_, ?_⟩
                  · rfl
                  · exact hprompt
                  · rfl
                  · exact hcall
                  · exact hparse
                  · rw [hrun, hparse]
                  · rw [hrun, hparse]

/-- Every reply of `computeFresh` with another status than 200, and a panic,
leave the package variables as they were. -/
theorem computeFresh_failure_state (w : World) (s : Cache) :
    (∀ status body, (computeFresh w s).outcome = .replied status body → status ≠ 200 →
      (computeFresh w s).state = s) ∧
    ((computeFresh w s).outcome = .panicked → (computeFresh w s).state = s) := by
  rcases computeFresh_state w s with h | ⟨_, _, _, _, _, v, _, _, _, _, _, _, _, _, hout⟩
  · exact ⟨fun _ _ _ _ => h, fun _ => h⟩
  · constructor
    · intro status body hrep hne
      rw [hout] at hrep
      injection hrep with h1 _
      exact absurd h1.symm hne
    · intro hp
      rw [hout] at hp
      cases hp

/-- The external service is called by `computeFresh` only for a batch that is
not empty. -/
theorem computeFresh_empty_batch (w : World) (s : Cache) (hbody : w.body = some []) :
    (∀ k q, Event.createChatCompletion k q ∉ (computeFresh w s).trace) ∧
    (∀ ex prompt, w.executable = some ex → w.readFile (w.promptFilePath ex) = some prompt →
      computeFresh w s = reply s [.lock, .unlock, .executable,
        .readFile (w.promptFilePath ex), .bindJSON] 400 (errorH "No articles provided")) := by
  constructor
  · intro k q
    cases hex : w.executable with
    | none => simp [computeFresh, hex, reply]
    | some ex =>
      cases hprompt : w.readFile (w.promptFilePath ex) with
      | none => simp [computeFresh, hex, hprompt, reply]
      | some prompt => simp [computeFresh, hex, hprompt, hbody, reply]
  · intro ex prompt hex hprompt
    simp [computeFresh, hex, hprompt, hbody]

/-- The events of `computeFresh` that happen while the mutex is held: none. -/
theorem computeFresh_heldEvents (w : World) (s : Cache) :
    heldEvents false (computeFresh w s).trace = [] := by
  cases hex : w.executable with
  | none => simp [computeFresh, hex, reply, heldEvents]
  | some ex =>
    cases hprompt : w.readFile (w.promptFilePath ex) with
    | none => simp [computeFresh, hex, hprompt, reply, heldEvents]
    | some prompt =>
      cases hbody : w.body with
      | none => simp [computeFresh, hex, hprompt, hbody, reply, heldEvents]
      | some articles =>
        by_cases hne : articles = []
        · simp [computeFresh, hex, hprompt, hbody, hne, reply, heldEvents]
        · have hlen : articles.length ≠ 0 := fun h0 => hne (List.length_eq_zero.1 h0)
          by_cases hkey : w.apiKey = ""
          · simp [computeFresh, hex, hprompt, hbody, hlen, hkey, reply, heldEvents]
          · cases hcall : w.createChatCompletion w.apiKey (buildRequest prompt articles) with
            | none => simp [computeFresh, hex, hprompt, hbody, hlen, hkey, hcall, reply, heldEvents]
            | some choices =>
              cases choices with
              | nil => simp [computeFresh, hex, hprompt, hbody, hlen, hkey, hcall, heldEvents]
              | cons first rest =>
                rw [computeFresh_decode w s ex prompt articles first rest
                  hex hprompt hbody hne hkey hcall]
                cases Unmarshal (extractContent first.toList) <;> simp [reply, heldEvents]

/-- The reply and the trace of `computeFresh` depend neither on the package
variables nor on the clock. -/
theorem computeFresh_independent (w₁ w₂ : World) (s₁ s₂ : Cache)
    (hexe : w₁.executable = w₂.executable)
    (hpath : w₁.promptFilePath = w₂.promptFilePath)
    (hread : w₁.readFile = w₂.readFile)
    (hbody : w₁.body = w₂.body)
    (hkey : w₁.apiKey = w₂.apiKey)
    (hcall : w₁.createChatCompletion = w₂.createChatCompletion) :
    (computeFresh w₁ s₁).outcome = (computeFresh w₂ s₂).outcome ∧
    (computeFresh w₁ s₁).trace = (computeFresh w₂ s₂).trace ∧
    (computeFresh w₁ s₁).trace.take 3 = [.lock, .unlock, .executable] := by
  unfold computeFresh
  rw [hexe, hpath, hread, hbody, hkey, hcall]
  cases hex : w₂.executable with
  | none => simp [reply]
  | some ex =>
    cases hprompt : w₂.readFile (w₂.promptFilePath ex) with
    | none => simp [hprompt, reply]
    | some prompt =>
      cases hb : w₂.body with
      | none => simp [hprompt, reply]
      | some articles =>
        by_cases hne : articles.length = 0
        · simp [hprompt, hne, reply]
        · by_cases hk : w₂.apiKey = ""
          · simp [hprompt, hne, hk, reply]
          · cases hc : w₂.createChatCompletion w₂.apiKey (buildRequest prompt articles) with
            | none => simp [hprompt, hne, hk, hc, reply]
            | some choices =>
              cases choices with
              | nil => simp [hprompt, hne, hk, hc]
              | cons first rest =>
                cases hu : Unmarshal (extractContent first.data) <;>
                  simp [hprompt, hne, hk, hc, hu, reply]

/-- The mutex is free when `computeFresh` returns. -/
theorem computeFresh_heldAfter (w : World) (s : Cache) :
    heldAfter false (computeFresh w s).trace = false := by
  cases hex : w.executable with
  | none => simp [computeFresh, hex, reply, heldAfter]
  | some ex =>
    cases hprompt : w.readFile (w.promptFilePath ex) with
    | none => simp [computeFresh, hex, hprompt, reply, heldAfter]
    | some prompt =>
      cases hbody : w.body with
      | none => simp [computeFresh, hex, hprompt, hbody, reply, heldAfter]
      | some articles =>
        by_cases hne : articles = []
        · simp [computeFresh, hex, hprompt, hbody, hne, reply, heldAfter]
        · have hlen : articles.length ≠ 0 := fun h0 => hne (List.length_eq_zero.1 h0)
          by_cases hkey : w.apiKey = ""
          · simp [computeFresh, hex, hprompt, hbody, hlen, hkey, reply, heldAfter]
          · cases hcall : w.createChatCompletion w.apiKey (buildRequest prompt articles) with
            | none => simp [computeFresh, hex, hprompt, hbody, hlen, hkey, hcall, reply, heldAfter]
            | some choices =>
              cases choices with
              | nil => simp [computeFresh, hex, hprompt, hbody, hlen, hkey, hcall, heldAfter]
              | cons first rest =>
                rw [computeFresh_decode w s ex prompt articles first rest
                  hex hprompt hbody hne hkey hcall]
                cases Unmarshal (extractContent first.toList) <;> simp [reply, heldAfter]

theorem storeMember_flag (st : Response × Bool) (kv : List Char × JSON) :
    (storeMember st kv).2 = (st.2 || !memberDecodes kv) := by
  rcases kv with ⟨k, v⟩
  unfold storeMember memberDecodes
  cases hf : fieldOf k with
  | none => simp
  | some f =>
    cases f <;> cases v <;> simp
    case indicator.num lit => cases ParseInt lit <;> simp

theorem foldl_storeMember_flag (kvs : List (List Char × JSON)) (st : Response × Bool) :
    (kvs.foldl storeMember st).2 = (st.2 || !kvs.all memberDecodes) := by
  induction kvs generalizing st with
  | nil => simp
  | cons kv kvs ih =>
    rw [List.foldl_cons, ih, storeMember_flag, List.all_cons]
    cases st.2 <;> cases memberDecodes kv <;> rfl

/-- A member that does not name a field leaves that field as it is. -/
theorem storeMember_keeps (st : Response × Bool) (kv : List Char × JSON) :
    (fieldOf kv.1 ≠ some .indicator → (storeMember st kv).1.Indicator = st.1.Indicator) ∧
    (fieldOf kv.1 ≠ some .comment → (storeMember st kv).1.Comment = st.1.Comment) ∧
    (fieldOf kv.1 ≠ some .review → (storeMember st kv).1.Review = st.1.Review) := by
  rcases kv with ⟨k, v⟩
  unfold storeMember
  cases hf : fieldOf k with
  | none => simp
  | some f =>
    cases f <;> cases v <;> simp
    case indicator.num lit => cases ParseInt lit <;> simp

theorem foldl_storeMember_keeps (kvs : List (List Char × JSON)) (st : Response × Bool) :
    ((∀ kv ∈ kvs, fieldOf kv.1 ≠ some .indicator) →
      (kvs.foldl storeMember st).1.Indicator = st.1.Indicator) ∧
    ((∀ kv ∈ kvs, fieldOf kv.1 ≠ some .comment) →
      (kvs.foldl storeMember st).1.Comment = st.1.Comment) ∧
    ((∀ kv ∈ kvs, fieldOf kv.1 ≠ some .review) →
      (kvs.foldl storeMember st).1.Review = st.1.Review) := by
  induction kvs generalizing st with
  | nil => simp
  | cons kv kvs ih =>
    obtain ⟨h1, h2, h3⟩ := ih (storeMember st kv)
    obtain ⟨k1, k2, k3⟩ := storeMember_keeps st kv
    refine ⟨fun h => ?_, fun h => ?_, fun h => ?_⟩
    · rw [List.foldl_cons, h1 fun x hx => h x (List.mem_cons_of_mem _ hx),
        k1 (h kv (List.mem_cons_self _ _))]
    · rw [List.foldl_cons, h2 fun x hx => h x (List.mem_cons_of_mem _ hx),
        k2 (h kv (List.mem_cons_self _ _))]
    · rw [List.foldl_cons, h3 fun x hx => h x (List.mem_cons_of_mem _ hx),
        k3 (h kv (List.mem_cons_self _ _))]

/-- A field that no member of the object names has its zero value in the
decoded `Response`. -/
theorem Unmarshal_missing_fields (data : List Char) (kvs : List (List Char × JSON))
    (v : Response) (hparse : parseJSON data = .ok (.obj kvs))
    (hv : Unmarshal data = some v) :
    ((∀ kv ∈ kvs, fieldOf kv.1 ≠ some .indicator) → v.Indicator = 0) ∧
    ((∀ kv ∈ kvs, fieldOf kv.1 ≠ some .comment) → v.Comment = "") ∧
    ((∀ kv ∈ kvs, fieldOf kv.1 ≠ some .review) → v.Review = "") := by
  unfold Unmarshal at hv
  rw [hparse] at hv
  simp only [decodeResponse] at hv
  split_ifs at hv
  injection hv with hv
  subst hv
  exact foldl_storeMember_keeps kvs (zeroResponse, false)

/-- A JSON value is stored without error exactly when it has the shape
`decodes`. -/
theorem decodeResponse_isSome (j : JSON) : (decodeResponse j).isSome = decodes j := by
  cases j with
  | obj kvs =>
    simp only [decodeResponse, decodes, foldl_storeMember_flag]
    cases kvs.all memberDecodes <;> rfl
  | _ => rfl

theorem Unmarshal_isSome_iff (data : List Char) :
    (Unmarshal data).isSome = true ↔ ∃ j, parseJSON data = .ok j ∧ decodes j = true := by
  unfold Unmarshal
  cases h : parseJSON data with
  | error e => simp
  | ok j => simp [decodeResponse_isSome]

/-! ### The regular expression -/

theorem matchHere_ofLiteral (p s : List Char) (c : Option (List Char)) :
    matchHere (Regex.ofLiteral p) s c
      = if startsWith p s then [(s.drop p.length, c)] else [] := by
  induction p generalizing s with
  | nil => cases s <;> simp [Regex.ofLiteral, matchHere, startsWith]
  | cons x xs ih =>
    cases s with
    | nil => simp [Regex.ofLiteral, matchHere, startsWith]
    | cons y ys =>
      by_cases hxy : y = x
      · subst hxy
        simp [Regex.ofLiteral, matchHere, startsWith, ih]
      · simp [Regex.ofLiteral, matchHere, startsWith, hxy]

theorem starLoop_dot (n : Nat) (s : List Char) (c : Option (List Char))
    (h : s.length ≤ n) :
    starLoop (matchHere .dot) n s c = s.tails.map fun r => (r, c) := by
  induction n generalizing s with
  | zero =>
    have hs : s = [] := List.length_eq_zero.1 (Nat.le_zero.1 h)
    subst hs
    rfl
  | succ n ih =>
    cases s with
    | nil => rfl
    | cons x xs =>
      have hxs : xs.length ≤ n := by simpa using h
      have hd : matchHere .dot (x :: xs) c = [(xs, c)] := rfl
      simp only [starLoop, hd]
      simp [ih xs hxs]

theorem head_tails_flatMap {α : Type} (pat : List Char) (g : List Char → α) (u : List Char) :
    (u.tails.flatMap fun r => if startsWith pat r then [g r] else []).head?
      = (indexOf pat u).map fun k => g (u.drop k) := by
  induction u with
  | nil =>
    by_cases hp : startsWith pat [] = true <;> simp [indexOf, hp]
  | cons x xs ih =>
    by_cases hp : startsWith pat (x :: xs) = true
    · simp [indexOf, hp]
    · simp only [List.tails, List.flatMap_cons, indexOf, hp, if_false, List.nil_append, ih,
        Option.map_map, Bool.false_eq_true]
      congr 1

theorem indexOf_le (pat : List Char) (s : List Char) (k : Nat)
    (h : indexOf pat s = some k) : k ≤ s.length := by
  induction s generalizing k with
  | nil =>
    unfold indexOf at h
    split_ifs at h
    injection h with h
    omega
  | cons x xs ih =>
    unfold indexOf at h
    split_ifs at h
    · injection h with h
      omega
    · cases hx : indexOf pat xs with
      | none => rw [hx] at h; cases h
      | some j =>
        rw [hx] at h
        injection h with h
        have := ih j hx
        simp at h ⊢
        omega

theorem indexOf_drop_none (pat : List Char) (s : List Char) (n : Nat)
    (h : indexOf pat s = none) : indexOf pat (s.drop n) = none := by
  induction n generalizing s with
  | zero => simpa using h
  | succ n ih =>
    cases s with
    | nil => simpa using h
    | cons x xs =>
      rw [List.drop_succ_cons]
      apply ih
      unfold indexOf at h
      split_ifs at h
      cases hx : indexOf pat xs with
      | none => rfl
      | some j => rw [hx] at h; cases h


/-- The preferred match of the group and the closing fence at the head of a
text: the group stops at the first closing fence. -/
theorem matchHere_body (s : List Char) (c : Option (List Char)) :
    (matchHere (.cat (.group (.lazyStar .dot)) (Regex.ofLiteral "```".toList)) s c).head?
      = (indexOf "```".toList s).map fun k => (s.drop (k + 3), some (s.take k)) := by
  have hstar : matchHere (.lazyStar .dot) s c = s.tails.map fun r => (r, c) :=
    starLoop_dot s.length s c (Nat.le_refl _)
  have hgroup : matchHere (.group (.lazyStar .dot)) s c
      = s.tails.map fun r => (r, some (s.take (s.length - r.length))) := by
    show (matchHere (.lazyStar .dot) s c).map _ = _
    rw [hstar, List.map_map]
    rfl
  have hcat : matchHere (.cat (.group (.lazyStar .dot)) (Regex.ofLiteral "```".toList)) s c
      = s.tails.flatMap fun r => if startsWith "```".toList r
          then [(r.drop 3, some (s.take (s.length - r.length)))] else [] := by
    show (matchHere (.group (.lazyStar .dot)) s c).flatMap _ = _
    rw [hgroup, List.flatMap_map]
    congr 1
    funext r
    exact matchHere_ofLiteral _ _ _
  rw [hcat, head_tails_flatMap "```".toList
    (fun r => (r.drop 3, some (s.take (s.length - r.length)))) s]
  cases hk : indexOf "```".toList s with
  | none => rfl
  | some k =>
    have hle := indexOf_le _ _ _ hk
    simp only [Option.map_some', List.drop_drop, List.length_drop]
    have h1 : s.length - (s.length - k) = k := by omega
    rw [h1, Nat.add_comm]


/-- The preferred match of the whole pattern at the head of a text. -/
theorem matchHere_fencePattern (s : List Char) :
    (matchHere fencePattern s none).head?
      = if startsWith "```json".toList s then
          (indexOf "```".toList (s.drop 7)).map fun k =>
            ((s.drop 7).drop (k + 3), some ((s.drop 7).take k))
        else none := by
  have hcat : matchHere fencePattern s none
      = (matchHere (Regex.ofLiteral "```json".toList) s none).flatMap fun p =>
          matchHere (.cat (.group (.lazyStar .dot)) (Regex.ofLiteral "```".toList)) p.1 p.2 :=
    rfl
  rw [hcat, matchHere_ofLiteral]
  by_cases hp : startsWith "```json".toList s = true
  · rw [if_pos hp, if_pos hp]
    simp only [List.flatMap_cons, List.flatMap_nil, List.append_nil]
    exact matchHere_body _ _
  · rw [if_neg hp, if_neg hp]
    rfl

theorem FindStringSubmatch_cons (re : Regex) (x : Char) (xs : List Char) :
    FindStringSubmatch re (x :: xs)
      = match (matchHere re (x :: xs) none).head? with
        | none => FindStringSubmatch re xs
        | some p => some (p.2.getD []) := by
  rw [FindStringSubmatch]
  cases matchHere re (x :: xs) none <;> rfl

/-- The submatch of the pattern, by the positions of the two fences. -/
theorem FindStringSubmatch_fencePattern (t : List Char) :
    FindStringSubmatch fencePattern t
      = match indexOf "```json".toList t with
        | none => none
        | some i =>
          (indexOf "```".toList (t.drop (i + 7))).map fun k => (t.drop (i + 7)).take k := by
  induction t with
  | nil => rfl
  | cons x xs ih =>
    rw [FindStringSubmatch_cons, matchHere_fencePattern]
    by_cases hp : startsWith "```json".toList (x :: xs) = true
    · have hi : indexOf "```json".toList (x :: xs) = some 0 := by
        rw [indexOf, if_pos hp]
      rw [if_pos hp, hi]
      cases hk : indexOf "```".toList ((x :: xs).drop 7) with
      | none =>
        have hk0 : indexOf "```".toList ((x :: xs).drop (0 + 7)) = none := by simpa using hk
        simp only [Option.map_none', hk0]
        rw [ih]
        cases hj : indexOf "```json".toList xs with
        | none => rfl
        | some j =>
          have hdrop : xs.drop (j + 7) = ((x :: xs).drop 7).drop (j + 1) := by
            rw [List.drop_drop]
            have : j + 1 + 7 = (j + 7) + 1 := by omega
            rw [Nat.add_comm 7 (j + 1), this, List.drop_succ_cons]
          simp only [hdrop, indexOf_drop_none _ _ _ hk, Option.map_none']
      | some k =>
        have hk0 : indexOf "```".toList ((x :: xs).drop (0 + 7)) = some k := by simpa using hk
        simp only [Option.map_some', hk0, Option.getD_some, Nat.zero_add]
    · have hi : indexOf "```json".toList (x :: xs)
          = (indexOf "```json".toList xs).map (· + 1) := by
        rw [indexOf, if_neg hp]
      rw [if_neg hp, hi, ih]
      cases indexOf "```json".toList xs with
      | none => rfl
      | some j =>
        have : j + 1 + 7 = (j + 7) + 1 := by omega
        simp only [Option.map_some', this, List.drop_succ_cons]

/-! ### The reader of JSON texts -/

theorem skipSpace_length (s : List Char) : (skipSpace s).length ≤ s.length := by
  induction s with
  | nil => simp [skipSpace]
  | cons c cs ih =>
    unfold skipSpace
    split_ifs
    · simp only [List.length_cons]; omega
    · exact Nat.le_refl _

theorem emit_some (pre : List Char) (x : Option (List Char × List Char)) (t r : List Char)
    (h : emit pre x = some (t, r)) : ∃ u, x = some (u, r) := by
  cases x with
  | none => simp [emit] at h
  | some p =>
    rcases p with ⟨u, r'⟩
    simp only [emit, Option.some.injEq, Prod.mk.injEq] at h
    exact ⟨u, by rw [h.2]⟩

theorem scanString_length (n : Nat) : ∀ (s : List Char) (p : Option Nat) (t r : List Char),
    s.length ≤ n → scanString p s = some (t, r) → r.length < s.length := by
  induction n with
  | zero =>
    intro s p t r hn h
    have hs : s = [] := List.length_eq_zero.1 (Nat.le_zero.1 hn)
    subst hs
    simp [scanString] at h
  | succ n ih =>
    intro s p t r hn h
    cases s with
    | nil => simp [scanString] at h
    | cons c rest =>
      have hrest : rest.length ≤ n := by simpa using hn
      unfold scanString at h
      split_ifs at h with h1 h2 h3
      · simp only [Option.some.injEq, Prod.mk.injEq] at h
        rw [← h.2]
        simp
      · obtain ⟨u, hu⟩ := emit_some _ _ _ _ h
        have := ih rest none u r hrest hu
        simp only [List.length_cons]
        omega
      · split at h
        · cases h
        · rename_i e rest1
          have hr1 : rest1.length ≤ n := by
            simp only [List.length_cons] at hrest
            omega
          split_ifs at h with hu
          · split at h
            · rename_i a b c d rest2
              have hr2 : rest2.length ≤ n := by
                simp only [List.length_cons] at hr1
                omega
              split at h
              · cases h
              · split at h
                · split_ifs at h
                  all_goals
                    obtain ⟨u, hu'⟩ := emit_some _ _ _ _ h
                    have := ih rest2 _ u r hr2 hu'
                    simp only [List.length_cons]
                    omega
                · split_ifs at h
                  · have := ih rest2 _ t r hr2 h
                    simp only [List.length_cons]
                    omega
                  · obtain ⟨u, hu'⟩ := emit_some _ _ _ _ h
                    have := ih rest2 _ u r hr2 hu'
                    simp only [List.length_cons]
                    omega
            · cases h
          · split at h
            · cases h
            · obtain ⟨u, hu'⟩ := emit_some _ _ _ _ h
              have := ih rest1 _ u r hr1 hu'
              simp only [List.length_cons]
              omega


theorem spanDigits_length (s : List Char) : (spanDigits s).2.length ≤ s.length := by
  induction s with
  | nil => simp [spanDigits]
  | cons c cs ih =>
    unfold spanDigits
    split_ifs
    · simp only [List.length_cons]; omega
    · exact Nat.le_refl _

theorem scanIntPart_length (s lit r : List Char) (h : scanIntPart s = some (lit, r)) :
    r.length < s.length := by
  cases s with
  | nil => simp [scanIntPart] at h
  | cons c cs =>
    simp only [scanIntPart] at h
    split_ifs at h
    · simp only [Option.some.injEq, Prod.mk.injEq] at h
      rw [← h.2]; simp
    · simp only [Option.some.injEq, Prod.mk.injEq] at h
      rw [← h.2]
      have := spanDigits_length cs
      simp only [List.length_cons]; omega

theorem scanFraction_length (s lit r : List Char) (h : scanFraction s = some (lit, r)) :
    r.length ≤ s.length := by
  unfold scanFraction at h
  split at h
  · rename_i cs
    have hsp := spanDigits_length cs
    split at h
    · cases h
    · rename_i ds r' heq
      simp only [Option.some.injEq, Prod.mk.injEq] at h
      rw [heq] at hsp
      rw [← h.2]
      simp only [List.length_cons]
      simp only at hsp
      omega
  · simp only [Option.some.injEq, Prod.mk.injEq] at h
    rw [← h.2]

theorem scanExponent_length (s lit r : List Char) (h : scanExponent s = some (lit, r)) :
    r.length ≤ s.length := by
  cases s with
  | nil =>
    simp only [scanExponent, Option.some.injEq, Prod.mk.injEq] at h
    rw [← h.2]
  | cons c cs =>
    simp only [scanExponent] at h
    split_ifs at h
    · split at h
      · cases h
      · rename_i g gs
        split_ifs at h
        · have hsp := spanDigits_length gs
          split at h
          · cases h
          · rename_i ds r' heq
            simp only [Option.some.injEq, Prod.mk.injEq] at h
            rw [heq] at hsp
            rw [← h.2]
            simp only [List.length_cons]
            simp only at hsp
            omega
        · have hsp := spanDigits_length (g :: gs)
          split at h
          · cases h
          · rename_i ds r' heq
            simp only [Option.some.injEq, Prod.mk.injEq] at h
            rw [heq] at hsp
            rw [← h.2]
            simp only [List.length_cons] at hsp ⊢
            omega
    · simp only [Option.some.injEq, Prod.mk.injEq] at h
      rw [← h.2]

theorem scanNumber_length (s lit r : List Char) (h : scanNumber s = some (lit, r)) :
    r.length < s.length := by
  unfold scanNumber at h
  simp only at h
  split at h
  · cases h
  · rename_i i r1 hi
    split at h
    · cases h
    · rename_i f r2 hf
      split at h
      · cases h
      · rename_i e r3 he
        simp only [Option.some.injEq, Prod.mk.injEq] at h
        have h1 := scanIntPart_length _ _ _ hi
        have h2 := scanFraction_length _ _ _ hf
        have h3 := scanExponent_length _ _ _ he
        rw [← h.2]
        have hbody : (match s with | '-' :: cs => cs | _ => s).length ≤ s.length := by
          split
          · simp
          · exact Nat.le_refl _
        omega

theorem dropLiteral_length (p s r : List Char) (h : dropLiteral p s = some r) :
    r.length ≤ s.length := by
  induction p generalizing s with
  | nil =>
    simp only [dropLiteral, Option.some.injEq] at h
    rw [h]
  | cons x xs ih =>
    cases s with
    | nil => simp [dropLiteral] at h
    | cons c cs =>
      unfold dropLiteral at h
      split_ifs at h
      have := ih cs h
      simp only [List.length_cons]; omega


theorem skipSpace_cons_length (s rest : List Char) (c : Char)
    (h : skipSpace s = c :: rest) : rest.length < s.length := by
  have := skipSpace_length s
  rw [h] at this
  simp only [List.length_cons] at this
  omega

/-- Whatever the parser reads, it reads at least one character. -/
theorem parse_consumes (fuel : Nat) :
    (∀ depth s v r, parseValue fuel depth s = .ok (v, r) → r.length < s.length) ∧
    (∀ depth s vs r, parseElements fuel depth s = .ok (vs, r) → r.length < s.length) ∧
    (∀ depth s kvs r, parseMembers fuel depth s = .ok (kvs, r) → r.length < s.length) := by
  induction fuel with
  | zero =>
    refine ⟨?_, ?_, ?_⟩ <;> intro depth s v r h
    · simp [parseValue] at h
    · simp [parseElements] at h
    · simp [parseMembers] at h
  | succ fuel ih =>
    obtain ⟨ihV, ihE, ihM⟩ := ih
    refine ⟨?_, ?_, ?_⟩
    · intro depth s v r h
      unfold parseValue at h
      split at h
      · cases h
      · rename_i c rest hsk
        have hrest := skipSpace_cons_length _ _ _ hsk
        split_ifs at h
        · split at h
          · cases h
          · rename_i d rest1 hsk1
            have hrest1 := skipSpace_cons_length _ _ _ hsk1
            split_ifs at h
            · simp only [Except.ok.injEq, Prod.mk.injEq] at h
              rw [← h.2]; omega
            · split at h
              · rename_i kvs r' hm
                simp only [Except.ok.injEq, Prod.mk.injEq] at h
                have := ihM _ _ _ _ hm
                simp only [List.length_cons] at this
                rw [← h.2]; omega
              · cases h
        · split at h
          · cases h
          · rename_i d rest1 hsk1
            have hrest1 := skipSpace_cons_length _ _ _ hsk1
            split_ifs at h
            · simp only [Except.ok.injEq, Prod.mk.injEq] at h
              rw [← h.2]; omega
            · split at h
              · rename_i vs r' hm
                simp only [Except.ok.injEq, Prod.mk.injEq] at h
                have := ihE _ _ _ _ hm
                simp only [List.length_cons] at this
                rw [← h.2]; omega
              · cases h
        · split at h
          · rename_i t' r' hs
            simp only [Except.ok.injEq, Prod.mk.injEq] at h
            have := scanString_length _ _ _ _ _ (Nat.le_refl _) hs
            rw [← h.2]; omega
          · cases h
        · split at h
          · rename_i r' hd
            simp only [Except.ok.injEq, Prod.mk.injEq] at h
            have := dropLiteral_length _ _ _ hd
            rw [← h.2]; omega
          · cases h
        · split at h
          · rename_i r' hd
            simp only [Except.ok.injEq, Prod.mk.injEq] at h
            have := dropLiteral_length _ _ _ hd
            rw [← h.2]; omega
          · cases h
        · split at h
          · rename_i r' hd
            simp only [Except.ok.injEq, Prod.mk.injEq] at h
            have := dropLiteral_length _ _ _ hd
            rw [← h.2]; omega
          · cases h
        · split at h
          · rename_i lit r' hnum
            simp only [Except.ok.injEq, Prod.mk.injEq] at h
            have := scanNumber_length _ _ _ hnum
            simp only [List.length_cons] at this
            rw [← h.2]; omega
          · cases h
    · intro depth s vs r h
      unfold parseElements at h
      split at h
      · cases h
      · rename_i v r1 hv
        have hr1 := ihV _ _ _ _ hv
        split at h
        · cases h
        · rename_i c rest hsk
          have hrest := skipSpace_cons_length _ _ _ hsk
          split_ifs at h
          · split at h
            · rename_i vs' r2 he
              simp only [Except.ok.injEq, Prod.mk.injEq] at h
              have := ihE _ _ _ _ he
              rw [← h.2]; omega
            · cases h
          · simp only [Except.ok.injEq, Prod.mk.injEq] at h
            rw [← h.2]; omega
    · intro depth s kvs r h
      unfold parseMembers at h
      split at h
      · cases h
      · rename_i q rest hsk
        have hrest := skipSpace_cons_length _ _ _ hsk
        split_ifs at h
        split at h
        · cases h
        · rename_i key r0 hkey
          have hr0 := scanString_length _ _ _ _ _ (Nat.le_refl _) hkey
          split at h
          · cases h
          · rename_i c rest1 hsk1
            have hrest1 := skipSpace_cons_length _ _ _ hsk1
            split_ifs at h
            split at h
            · cases h
            · rename_i v r1 hv
              have hr1 := ihV _ _ _ _ hv
              split at h
              · cases h
              · rename_i d rest2 hsk2
                have hrest2 := skipSpace_cons_length _ _ _ hsk2
                split_ifs at h
                · split at h
                  · rename_i kvs' r2 hm
                    simp only [Except.ok.injEq, Prod.mk.injEq] at h
                    have := ihM _ _ _ _ hm
                    rw [← h.2]; omega
                  · cases h
                · simp only [Except.ok.injEq, Prod.mk.injEq] at h
                  rw [← h.2]; omega


/-- With fuel above twice the length of the text the parser does not run out
of fuel. -/
theorem parse_fuel (fuel : Nat) :
    (∀ depth s, 2 * s.length + 1 ≤ fuel → parseValue fuel depth s ≠ .error .outOfFuel) ∧
    (∀ depth s, 2 * s.length + 2 ≤ fuel → parseElements fuel depth s ≠ .error .outOfFuel) ∧
    (∀ depth s, 2 * s.length + 2 ≤ fuel → parseMembers fuel depth s ≠ .error .outOfFuel) := by
  induction fuel with
  | zero =>
    refine ⟨?_, ?_, ?_⟩ <;> intro depth s hf <;> omega
  | succ fuel ih =>
    obtain ⟨ihV, ihE, ihM⟩ := ih
    have hcV := (parse_consumes fuel).1
    refine ⟨?_, ?_, ?_⟩
    · intro depth s hf h
      unfold parseValue at h
      split at h
      · cases h
      · rename_i c rest hsk
        have hrest := skipSpace_cons_length _ _ _ hsk
        split_ifs at h
        · cases h
        · split at h
          · cases h
          · rename_i d rest1 hsk1
            have hrest1 := skipSpace_cons_length _ _ _ hsk1
            split_ifs at h
            split at h
            · cases h
            · rename_i e hm
              simp only [Except.error.injEq] at h
              subst h
              refine ihM _ _ ?_ hm
              simp only [List.length_cons]
              omega
        · cases h
        · split at h
          · cases h
          · rename_i d rest1 hsk1
            have hrest1 := skipSpace_cons_length _ _ _ hsk1
            split_ifs at h
            split at h
            · cases h
            · rename_i e hm
              simp only [Except.error.injEq] at h
              subst h
              refine ihE _ _ ?_ hm
              simp only [List.length_cons]
              omega
        · split at h <;> cases h
        · split at h <;> cases h
        · split at h <;> cases h
        · split at h <;> cases h
        · split at h <;> cases h
    · intro depth s hf h
      unfold parseElements at h
      split at h
      · rename_i e hv
        simp only [Except.error.injEq] at h
        subst h
        exact ihV _ _ (by omega) hv
      · rename_i v r1 hv
        have hr1 := hcV _ _ _ _ hv
        split at h
        · cases h
        · rename_i c rest hsk
          have hrest := skipSpace_cons_length _ _ _ hsk
          split_ifs at h
          · split at h
            · cases h
            · rename_i e he
              simp only [Except.error.injEq] at h
              subst h
              exact ihE _ _ (by omega) he
          · cases h
    · intro depth s hf h
      unfold parseMembers at h
      split at h
      · cases h
      · rename_i q rest hsk
        have hrest := skipSpace_cons_length _ _ _ hsk
        split_ifs at h
        · cases h
        split at h
        · cases h
        · rename_i key r0 hkey
          have hr0 := scanString_length _ _ _ _ _ (Nat.le_refl _) hkey
          split at h
          · cases h
          · rename_i c rest1 hsk1
            have hrest1 := skipSpace_cons_length _ _ _ hsk1
            split_ifs at h
            · cases h
            split at h
            · rename_i e hv
              simp only [Except.error.injEq] at h
              subst h
              exact ihV _ _ (by omega) hv
            · rename_i v r1 hv
              have hr1 := hcV _ _ _ _ hv
              split at h
              · cases h
              · rename_i d rest2 hsk2
                have hrest2 := skipSpace_cons_length _ _ _ hsk2
                split_ifs at h
                · split at h
                  · cases h
                  · rename_i e hm
                    simp only [Except.error.injEq] at h
                    subst h
                    exact ihM _ _ (by omega) hm
                · cases h

/-- Reading a text as JSON never fails for lack of fuel: a failure of
`parseJSON` is a failure of the grammar. -/
theorem parseJSON_never_outOfFuel (s : List Char) : parseJSON s ≠ .error .outOfFuel := by
  intro h
  unfold parseJSON at h
  split at h
  · rename_i e hv
    simp only [Except.error.injEq] at h
    subst h
    exact (parse_fuel _).1 0 s (Nat.le_refl _) hv
  · split at h <;> cases h

/-! ## The claims -/

/-- C1: on a fresh cache (`now - cacheTime` under fifteen minutes) the handler
replies 200 with the cached `Response`, whatever the request body and the rest
of the surroundings are; it reads no file, calls no external service, and
leaves `cache` and `cacheTime` as they were. -/
theorem cache_hit_serves_cached (w : World) (s : Cache)
    (h : w.now - s.cacheTime < cacheTTL) :
    (MeterHandler w s).outcome = .replied 200 s.cache.toJSON ∧
    (MeterHandler w s).state = s ∧
    (MeterHandler w s).trace = [.lock, .writeJSON 200 s.cache.toJSON, .unlock] ∧
    (∀ p, Event.readFile p ∉ (MeterHandler w s).trace) ∧
    (∀ k q, Event.createChatCompletion k q ∉ (MeterHandler w s).trace) := by
  rw [MeterHandler_fresh w s h]
  simp

/-- C1 at a sample: the cache is five minutes old and holds a verdict that no
answer to this request would give. -/
theorem cache_hit_serves_cached_witness :
    (MeterHandler (sampleWorld (some [fencedAnswer])) recentCache).outcome
      = .replied 200 (Response.toJSON ⟨3, "calm", "quiet week"⟩) ∧
    (MeterHandler (sampleWorld (some [fencedAnswer])) recentCache).state = recentCache :=
  have h := cache_hit_serves_cached (sampleWorld (some [fencedAnswer])) recentCache
    (by decide)
  ⟨h.1, h.2.1⟩

/-- C2: on a stale cache, with a readable prompt, a batch that is not empty, a
credential, and an answer whose first choice decodes to `v` after the
extraction, the handler replies 200 with `v`, and afterwards `cache = v` and
`cacheTime` is the clock at the store.  The fenced sample answer decodes to
`{7, "ok", "fine"}`. -/
theorem success_returned_and_stored (w : World) (s : Cache) (ex prompt : String)
    (articles : List Article) (first : String) (rest : List String) (v : Response)
    (hstale : cacheTTL ≤ w.now - s.cacheTime)
    (hex : w.executable = some ex)
    (hprompt : w.readFile (w.promptFilePath ex) = some prompt)
    (hbody : w.body = some articles) (hne : articles ≠ [])
    (hkey : w.apiKey ≠ "")
    (hcall : w.createChatCompletion w.apiKey (buildRequest prompt articles)
      = some (first :: rest))
    (hparse : Unmarshal (extractContent first.toList) = some v) :
    (MeterHandler w s).outcome = .replied 200 v.toJSON ∧
    (MeterHandler w s).state = ⟨v, w.storeTime⟩ ∧
    Unmarshal (extractContent fencedAnswer.toList) = some ⟨7, "ok", "fine"⟩ := by
  rw [MeterHandler_stale w s hstale,
    computeFresh_decode w s ex prompt articles first rest hex hprompt hbody hne hkey hcall,
    hparse]
  exact ⟨rfl, rfl, by decide⟩

/-- C2 at a sample: the never-written cache and the fenced answer. -/
theorem success_returned_and_stored_witness :
    (MeterHandler (sampleWorld (some [fencedAnswer])) Cache.initial).outcome
      = .replied 200 (Response.toJSON ⟨7, "ok", "fine"⟩) ∧
    (MeterHandler (sampleWorld (some [fencedAnswer])) Cache.initial).state
      = ⟨⟨7, "ok", "fine"⟩, 63900000002000000000⟩ :=
  have h := success_returned_and_stored (sampleWorld (some [fencedAnswer])) Cache.initial
    "/srv/meter/server" "<prompt/>" [[("title".toList, .str "Storm warning".toList)]]
    fencedAnswer [] ⟨7, "ok", "fine"⟩ (by decide) rfl rfl rfl (List.cons_ne_nil _ _)
    (by decide) rfl (by decide)
  ⟨h.1, h.2.1⟩

/-- C3: on a stale cache (`now - cacheTime` at least fifteen minutes, the
boundary included) the handler does not take the cache-hit branch: the mutex
is released before anything is written, and the reply and the whole trace, the
external call included, are the same for any two stale caches and any two
clocks, once the executable path, the prompt file, the request body, the
credential and the external service are the same. -/
theorem stale_cache_not_used (w₁ w₂ : World) (s₁ s₂ : Cache)
    (h₁ : cacheTTL ≤ w₁.now - s₁.cacheTime) (h₂ : cacheTTL ≤ w₂.now - s₂.cacheTime)
    (hexe : w₁.executable = w₂.executable)
    (hpath : w₁.promptFilePath = w₂.promptFilePath)
    (hread : w₁.readFile = w₂.readFile)
    (hbody : w₁.body = w₂.body)
    (hkey : w₁.apiKey = w₂.apiKey)
    (hcall : w₁.createChatCompletion = w₂.createChatCompletion) :
    (MeterHandler w₁ s₁).outcome = (MeterHandler w₂ s₂).outcome ∧
    (MeterHandler w₁ s₁).trace = (MeterHandler w₂ s₂).trace ∧
    (MeterHandler w₁ s₁).trace.take 3 = [.lock, .unlock, .executable] := by
  rw [MeterHandler_stale w₁ s₁ h₁, MeterHandler_stale w₂ s₂ h₂]
  exact computeFresh_independent w₁ w₂ s₁ s₂ hexe hpath hread hbody hkey hcall

/-- C3 at a sample: the cache written exactly fifteen minutes ago and the
never-written cache, under two different clocks. -/
theorem stale_cache_not_used_witness :
    (MeterHandler (sampleWorld (some [fencedAnswer])) expiredCache).outcome
      = (MeterHandler { sampleWorld (some [fencedAnswer]) with now := 64000000000000000000 }
          Cache.initial).outcome ∧
    (MeterHandler (sampleWorld (some [fencedAnswer])) expiredCache).outcome
      = .replied 200 (Response.toJSON ⟨7, "ok", "fine"⟩) :=
  have h := stale_cache_not_used (sampleWorld (some [fencedAnswer]))
    { sampleWorld (some [fencedAnswer]) with now := 64000000000000000000 }
    expiredCache Cache.initial (by decide) (by decide) rfl rfl rfl rfl rfl rfl
  ⟨h.1, by decide⟩

/-- C4 as stated fails: with an empty batch the handler replies 200 with the
cached verdict when the cache is fresh, and 500 when the cache is stale and the
prompt file cannot be read; in neither run is the batch looked at. -/
theorem empty_batch_not_checked_first :
    ({ sampleWorld none with body := some [] } : World).body = some [] ∧
    (MeterHandler { sampleWorld none with body := some [] } recentCache).outcome
      = .replied 200 (Response.toJSON ⟨3, "calm", "quiet week"⟩) ∧
    (MeterHandler { sampleWorld none with body := some [], readFile := fun _ => none }
      Cache.initial).outcome = .replied 500 (errorH "Failed to read prompt file") := by
  refine ⟨rfl, ?_, ?_⟩ <;> decide

/-- C4 amended: an empty batch never leads to an external call; on a stale
cache, once the executable path is found and the prompt file is read, it is
answered 400 "No articles provided" and the cache is left as it was.  The
check comes after the cache lookup and the prompt load. -/
theorem empty_batch_rejected (w : World) (s : Cache) (hbody : w.body = some []) :
    (∀ k q, Event.createChatCompletion k q ∉ (MeterHandler w s).trace) ∧
    (cacheTTL ≤ w.now - s.cacheTime → ∀ ex prompt, w.executable = some ex →
      w.readFile (w.promptFilePath ex) = some prompt →
      (MeterHandler w s).outcome = .replied 400 (errorH "No articles provided") ∧
      (MeterHandler w s).state = s ∧
      (MeterHandler w s).trace = [.lock, .unlock, .executable,
        .readFile (w.promptFilePath ex), .bindJSON,
        .writeJSON 400 (errorH "No articles provided")]) := by
  constructor
  · intro k q
    by_cases h : w.now - s.cacheTime < cacheTTL
    · rw [MeterHandler_fresh w s h]
      simp
    · rw [MeterHandler_stale w s (not_lt.1 h)]
      exact (computeFresh_empty_batch w s hbody).1 k q
  · intro hstale ex prompt hex hprompt
    rw [MeterHandler_stale w s hstale, (computeFresh_empty_batch w s hbody).2 ex prompt hex hprompt]
    exact ⟨rfl, rfl, rfl⟩

/-- C4 amended, at a sample: the never-written cache and an empty batch. -/
theorem empty_batch_rejected_witness :
    (MeterHandler { sampleWorld none with body := some [] } Cache.initial).outcome
      = .replied 400 (errorH "No articles provided") :=
  ((empty_batch_rejected { sampleWorld none with body := some [] } Cache.initial rfl).2
    (by decide) "/srv/meter/server" "<prompt/>" rfl rfl).1

/-- C5 as stated fails: when the external call returns an error, and when the
answer does not parse, the status of the reply is 500, not 200, and the object
written has no `review` member. -/
theorem failures_not_masked_as_success :
    (MeterHandler (sampleWorld none) Cache.initial).outcome
      = .replied 500 [("comment", .str "An error occurred"), ("indicator", .int 42)] ∧
    (MeterHandler (sampleWorld none) Cache.initial).outcome
      ≠ .replied 200 (Response.toJSON ⟨42, "An error occurred", ""⟩) ∧
    (MeterHandler (sampleWorld (some ["I cannot comply."])) Cache.initial).outcome
      = .replied 500 [("comment", .str "Failed to parse response"), ("indicator", .int 42)] ∧
    (MeterHandler (sampleWorld (some ["I cannot comply."])) Cache.initial).outcome
      ≠ .replied 200 (Response.toJSON ⟨42, "Failed to parse response", ""⟩) := by
  refine ⟨?_, ?_, ?_, ?_⟩ <;> decide

/-- C5 amended: for a request that passes the checks on a stale cache, an error
of the external call is answered with status 500 and the object
`{"indicator": 42, "comment": "An error occurred"}`, and an answer that does
not parse with status 500 and `{"indicator": 42, "comment": "Failed to parse
response"}`; the cache is left as it was. -/
theorem failures_answered_500 (w : World) (s : Cache) (ex prompt : String)
    (articles : List Article)
    (hstale : cacheTTL ≤ w.now - s.cacheTime)
    (hex : w.executable = some ex)
    (hprompt : w.readFile (w.promptFilePath ex) = some prompt)
    (hbody : w.body = some articles) (hne : articles ≠ [])
    (hkey : w.apiKey ≠ "") :
    (w.createChatCompletion w.apiKey (buildRequest prompt articles) = none →
      (MeterHandler w s).outcome = .replied 500 (fallbackH "An error occurred") ∧
      (MeterHandler w s).state = s) ∧
    (∀ first rest,
      w.createChatCompletion w.apiKey (buildRequest prompt articles) = some (first :: rest) →
      Unmarshal (extractContent first.toList) = none →
      (MeterHandler w s).outcome = .replied 500 (fallbackH "Failed to parse response") ∧
      (MeterHandler w s).state = s) := by
  rw [MeterHandler_stale w s hstale]
  constructor
  · intro hcall
    have hlen : articles.length ≠ 0 := fun h0 => hne (List.length_eq_zero.1 h0)
    simp [computeFresh, hex, hprompt, hbody, hlen, hkey, hcall, reply]
  · intro first rest hcall hparse
    rw [computeFresh_decode w s ex prompt articles first rest hex hprompt hbody hne hkey hcall,
      hparse]
    exact ⟨rfl, rfl⟩

/-- C5 amended, at a sample: an error of the external call on the never-written
cache. -/
theorem failures_answered_500_witness :
    (MeterHandler (sampleWorld none) Cache.initial).outcome
      = .replied 500 (fallbackH "An error occurred") ∧
    (MeterHandler (sampleWorld none) Cache.initial).state = Cache.initial :=
  (failures_answered_500 (sampleWorld none) Cache.initial "/srv/meter/server" "<prompt/>"
    [[("title".toList, .str "Storm warning".toList)]] (by decide) rfl rfl rfl
    (List.cons_ne_nil _ _) (by decide)).1 rfl

/-- C6: a run leaves `cache` and `cacheTime` as they were unless it is the run
on a stale cache in which every check passes and the first choice decodes to
some `v`, and then they become `v` and the clock at the store.  So a cache
hit, every reply with another status than 200 (invalid body, empty batch,
unreadable prompt, missing credential, external error, parse failure) and a
panic leave them unchanged. -/
theorem cache_replaced_only_on_parse (w : World) (s : Cache) :
    ((MeterHandler w s).state = s ∨
      ∃ ex prompt articles first rest v,
        cacheTTL ≤ w.now - s.cacheTime ∧
        w.executable = some ex ∧ w.readFile (w.promptFilePath ex) = some prompt ∧
        w.body = some articles ∧ articles ≠ [] ∧ w.apiKey ≠ "" ∧
        w.createChatCompletion w.apiKey (buildRequest prompt articles)
          = some (first :: rest) ∧
        Unmarshal (extractContent first.toList) = some v ∧
        (MeterHandler w s).state = ⟨v, w.storeTime⟩ ∧
        (MeterHandler w s).outcome = .replied 200 v.toJSON) ∧
    (w.now - s.cacheTime < cacheTTL → (MeterHandler w s).state = s) ∧
    (∀ status body, (MeterHandler w s).outcome = .replied status body → status ≠ 200 →
      (MeterHandler w s).state = s) ∧
    ((MeterHandler w s).outcome = .panicked → (MeterHandler w s).state = s) := by
  by_cases h : w.now - s.cacheTime < cacheTTL
  · rw [MeterHandler_fresh w s h]
    exact ⟨Or.inl rfl, fun _ => rfl, fun _ _ _ _ => rfl, fun _ => rfl⟩
  · rw [MeterHandler_stale w s (not_lt.1 h)]
    refine ⟨?_, fun h' => absurd h' h, (computeFresh_failure_state w s).1,
      (computeFresh_failure_state w s).2⟩
    rcases computeFresh_state w s with hs | ⟨ex, prompt, articles, first, rest, v, hrest⟩
    · exact Or.inl hs
    · exact Or.inr ⟨ex, prompt, articles, first, rest, v, not_lt.1 h, hrest⟩

/-- C7 as stated fails: a payload with fields missing is not a parse failure.
The empty object decodes to the zero `Response` and the object with
`indicator` alone to `{7, "", ""}`; each is answered 200 and stored. -/
theorem missing_fields_accepted :
    Unmarshal "\x7b\x7d".toList = some ⟨0, "", ""⟩ ∧
    Unmarshal "\x7b\"indicator\":7\x7d".toList = some ⟨7, "", ""⟩ ∧
    (MeterHandler (sampleWorld (some ["\x7b\x7d"])) Cache.initial).outcome
      = .replied 200 (Response.toJSON ⟨0, "", ""⟩) ∧
    (MeterHandler (sampleWorld (some ["\x7b\x7d"])) Cache.initial).state
      = ⟨⟨0, "", ""⟩, 63900000002000000000⟩ ∧
    (MeterHandler (sampleWorld (some ["```json\x7b\"indicator\":7\x7d```"])) Cache.initial).state
      = ⟨⟨7, "", ""⟩, 63900000002000000000⟩ := by
  refine ⟨?_, ?_, ?_, ?_, ?_⟩ <;> decide

/-- C7 amended: for a request that passes the checks on a stale cache, the
payload is returned with status 200 and stored exactly when it is a JSON text
that is `null` or a record in which every member naming `indicator`, `comment`
or `review` (in any letter case) is `null` or correctly typed: an integer
literal of the 64-bit range, a string, a string.  A field that is missing
keeps its zero value.  Any other payload, a mistyped field included, is
answered 500 with the parse-failure object and is not stored. -/
theorem verdict_shape_enforced (w : World) (s : Cache) (ex prompt : String)
    (articles : List Article) (first : String) (rest : List String)
    (hstale : cacheTTL ≤ w.now - s.cacheTime)
    (hex : w.executable = some ex)
    (hprompt : w.readFile (w.promptFilePath ex) = some prompt)
    (hbody : w.body = some articles) (hne : articles ≠ [])
    (hkey : w.apiKey ≠ "")
    (hcall : w.createChatCompletion w.apiKey (buildRequest prompt articles)
      = some (first :: rest)) :
    ((∃ j, parseJSON (extractContent first.toList) = .ok j ∧ decodes j = true) →
      ∃ v, Unmarshal (extractContent first.toList) = some v ∧
        (MeterHandler w s).outcome = .replied 200 v.toJSON ∧
        (MeterHandler w s).state = ⟨v, w.storeTime⟩) ∧
    ((¬ ∃ j, parseJSON (extractContent first.toList) = .ok j ∧ decodes j = true) →
      (MeterHandler w s).outcome = .replied 500 (fallbackH "Failed to parse response") ∧
      (MeterHandler w s).state = s) ∧
    (∀ kvs, parseJSON (extractContent first.toList) = .ok (.obj kvs) →
      (∃ kv ∈ kvs, memberDecodes kv = false) →
      (MeterHandler w s).outcome = .replied 500 (fallbackH "Failed to parse response") ∧
      (MeterHandler w s).state = s) ∧
    (∀ kvs v, parseJSON (extractContent first.toList) = .ok (.obj kvs) →
      Unmarshal (extractContent first.toList) = some v →
      ((∀ kv ∈ kvs, fieldOf kv.1 ≠ some .indicator) → v.Indicator = 0) ∧
      ((∀ kv ∈ kvs, fieldOf kv.1 ≠ some .comment) → v.Comment = "") ∧
      ((∀ kv ∈ kvs, fieldOf kv.1 ≠ some .review) → v.Review = "")) := by
  rw [MeterHandler_stale w s hstale,
    computeFresh_decode w s ex prompt articles first rest hex hprompt hbody hne hkey hcall]
  have hiff := Unmarshal_isSome_iff (extractContent first.toList)
  have hfail : (¬ ∃ j, parseJSON (extractContent first.toList) = .ok j ∧ decodes j = true) →
      Unmarshal (extractContent first.toList) = none := by
    intro hno
    cases hu : Unmarshal (extractContent first.toList) with
    | none => rfl
    | some v => exact absurd (hiff.1 (by rw [hu]; rfl)) hno
  refine ⟨?_, ?_, ?_, fun kvs v hparse hv => Unmarshal_missing_fields _ kvs v hparse hv⟩
  · intro hshape
    cases hu : Unmarshal (extractContent first.toList) with
    | none =>
      have := hiff.2 hshape
      rw [hu] at this
      cases this
    | some v => exact ⟨v, rfl, rfl, rfl⟩
  · intro hno
    rw [hfail hno]
    exact ⟨rfl, rfl⟩
  · intro kvs hparse hbad
    have hno : ¬ ∃ j, parseJSON (extractContent first.toList) = .ok j ∧ decodes j = true := by
      rintro ⟨j, hj, hd⟩
      rw [hparse] at hj
      injection hj with hj
      subst hj
      rcases hbad with ⟨kv, hmem, hkv⟩
      have hall : kvs.all memberDecodes = true := hd
      rw [List.all_eq_true] at hall
      rw [hall kv hmem] at hkv
      cases hkv
    rw [hfail hno]
    exact ⟨rfl, rfl⟩

/-- C7 amended, at a sample: `indicator` given as a string is a parse failure
and the never-written cache stays as it was. -/
theorem verdict_shape_enforced_witness :
    (MeterHandler (sampleWorld (some ["\x7b\"indicator\":\"7\"\x7d"])) Cache.initial).outcome
      = .replied 500 (fallbackH "Failed to parse response") ∧
    (MeterHandler (sampleWorld (some ["\x7b\"indicator\":\"7\"\x7d"])) Cache.initial).state
      = Cache.initial :=
  (verdict_shape_enforced (sampleWorld (some ["\x7b\"indicator\":\"7\"\x7d"])) Cache.initial
    "/srv/meter/server" "<prompt/>" [[("title".toList, .str "Storm warning".toList)]]
    "\x7b\"indicator\":\"7\"\x7d" [] (by decide) rfl rfl rfl (List.cons_ne_nil _ _)
    (by decide) rfl).2.2.1 [("indicator".toList, .str ['7'])] rfl
    ⟨("indicator".toList, .str ['7']), List.mem_singleton.2 rfl, by decide⟩

/-- C8: the code at the failing input.  The external call returns no error and
an empty list of choices; `resp.Choices[0]` is reached and the run ends in a
panic, not in the masked fallback reply. -/
theorem empty_choices_panics :
    (sampleWorld (some [])).createChatCompletion "sk-test"
      (buildRequest "<prompt/>" [[("title".toList, .str "Storm warning".toList)]])
      = some [] ∧
    (MeterHandler (sampleWorld (some [])) Cache.initial).outcome = .panicked ∧
    (MeterHandler (sampleWorld (some [])) Cache.initial).outcome
      ≠ .replied 500 (fallbackH "An error occurred") := by
  refine ⟨rfl, ?_, ?_⟩ <;> decide

/-- C9: for every text the payload that the handler takes with the regular
expression (group 1 of the leftmost match, the whole text without a match) is
the text strictly between the first opening marker and the next closing marker
after it when both exist, and the whole text otherwise. -/
theorem extraction_matches_spec (t : List Char) :
    extractContent t = candidatePayloadSpec t := by
  unfold extractContent candidatePayloadSpec
  rw [FindStringSubmatch_fencePattern]
  cases indexOf "```json".toList t with
  | none => rfl
  | some i =>
    dsimp only
    cases indexOf "```".toList (t.drop (i + 7)) <;> rfl

/-- C10 as stated fails: on the cache-hit path the reply is written while the
mutex is held. -/
theorem reply_written_under_lock :
    (MeterHandler (sampleWorld none) recentCache).trace
      = [.lock, .writeJSON 200 (Response.toJSON ⟨3, "calm", "quiet week"⟩), .unlock] ∧
    heldEvents false (MeterHandler (sampleWorld none) recentCache).trace
      = [.writeJSON 200 (Response.toJSON ⟨3, "calm", "quiet week"⟩)] := by
  constructor <;> decide

/-- C10 amended: the only thing done while the mutex is held, besides the
freshness check and the assignments, is the writing of the cached reply on the
cache-hit path; no file is read, no request body is bound and no external call
is made under the mutex, and the mutex is free when the handler returns. -/
theorem lock_discipline (w : World) (s : Cache) :
    heldEvents false (MeterHandler w s).trace
      = (if w.now - s.cacheTime < cacheTTL then [.writeJSON 200 s.cache.toJSON] else []) ∧
    (∀ p, Event.readFile p ∉ heldEvents false (MeterHandler w s).trace) ∧
    Event.bindJSON ∉ heldEvents false (MeterHandler w s).trace ∧
    (∀ k q, Event.createChatCompletion k q ∉ heldEvents false (MeterHandler w s).trace) ∧
    heldAfter false (MeterHandler w s).trace = false := by
  by_cases h : w.now - s.cacheTime < cacheTTL
  · rw [MeterHandler_fresh w s h, if_pos h]
    simp [heldEvents, heldAfter]
  · rw [MeterHandler_stale w s (not_lt.1 h), if_neg h, computeFresh_heldEvents]
    simp [computeFresh_heldAfter]

end Poopometer
